import Mathlib

/-!
# Cosa: one-wire bus (`Cosa/OWI.hh`) and SPI framing (`Cosa/SPI.h`)

A shallow embedding of the inline code of the two headers.

* Machine integers are `Nat`/`Int` with explicit reduction modulo `2^8`
  where a store into a `uint8_t`/`int8_t` can truncate.
* Hardware registers (`DDR`, `PORT`, `SPDR`, `SPSR`) are fields of explicit
  state records that are passed through every operation.
* `synchronized { ... }` only brackets its block with interrupt disabling; the
  block is embedded as one atomic state transformer.
-/

namespace Cosa

/-! ## Machine integer helpers -/

/-- Store of an integer into a `uint8_t`. -/
def toUInt8 (x : Nat) : Nat := x % 256

/-- Conversion of an integer to `int8_t` (two's complement wrap-around). -/
def toInt8 (x : Int) : Int := (x + 128) % 256 - 128

/-- The operand `~m` of `r &= ~m` as seen by an 8 bit register `r`: operands are
promoted to `int`, complemented, and the result of the `&` is truncated to the
register width, so only the low eight bits of the complement take part. -/
def compl8 (m : Nat) : Nat := 0xFF ^^^ (m % 256)

/-- Modelled from the spec: `CHARBITS` is declared in `Cosa/Types.h`, which is outside
the headers embedded here; the spec fixes an identifier at 8 bytes and 64 bit
positions, that is 8 bits per byte. -/
def CHARBITS : Nat := 8

namespace OWI

/-! ## `OWI` constants -/

/-- Source: `static const uint8_t ROM_MAX = 8;` -/
def ROM_MAX : Nat := 8

/-- Source: `static const uint8_t ROMBITS = ROM_MAX * CHARBITS;` (stored in a `uint8_t`). -/
def ROMBITS : Nat := toUInt8 (ROM_MAX * CHARBITS)

namespace Driver

/-- Source: `enum { FIRST = -1, ... }` -/
def FIRST : Int := -1

/-- Source: `enum { ..., ERROR = -1, ... }` -/
def ERROR : Int := -1

/-- Source: `enum { ..., LAST = ROMBITS }` -/
def LAST : Int := (ROMBITS : Int)

end Driver

/-- The data members of `class OWI::Driver`. Pointers are abstract addresses,
`none` being the null pointer. -/
structure DriverState where
  m_rom : List Nat
  ROM : Option Nat
  m_next : Option Nat
  m_pin : Option Nat
  NAME : Option String
deriving DecidableEq, Repr

/-- Source: `Driver(OWI* pin, const char* name = 0) : ROM(0), NAME(name), m_pin(pin) {}`.
The members `m_rom` and `m_next` are not initialised by the constructor; their
indeterminate contents are the arguments `rom0` and `next0`. -/
def DriverState.new (pin : Option Nat) (name : Option String)
    (rom0 : List Nat) (next0 : Option Nat) : DriverState :=
  { m_rom := rom0, ROM := none, m_next := next0, m_pin := pin, NAME := name }

/-- The data members of `class OWI::Search : private Driver`. -/
structure Search extends DriverState where
  m_family : Nat
  m_last : Int
deriving DecidableEq, Repr

namespace Search

/-- Source: `Search(OWI* owi, uint8_t family = 0) : Driver(owi), m_family(family),
m_last(FIRST) {}` -/
def new (owi : Option Nat) (family : Nat) (rom0 : List Nat) (next0 : Option Nat) :
    Search :=
  { toDriverState := DriverState.new owi none rom0 next0,
    m_family := toUInt8 family,
    m_last := toInt8 Driver.FIRST }

/-- Source: `void reset() { m_last = FIRST; }` -/
def reset (s : Search) : Search :=
  { s with m_last := toInt8 Driver.FIRST }

end Search

/-! ## Pin registers and the slave pin helpers of `OWI::Device` -/

/-- The two 8 bit registers of the port a pin lives on, as reached through
`DDR()` and `PORT()`. -/
structure PinRegs where
  DDR : Nat
  PORT : Nat
deriving DecidableEq, Repr

/-- Both registers hold 8 bit values. -/
def PinRegs.WF (r : PinRegs) : Prop := r.DDR < 256 ∧ r.PORT < 256

instance (r : PinRegs) : Decidable r.WF := by
  unfold PinRegs.WF; exact inferInstance

namespace Device

/-- Source: `enum Mode { OUTPUT_MODE = 0, INPUT_MODE = 1 }` -/
inductive Mode where
  | OUTPUT_MODE
  | INPUT_MODE
deriving DecidableEq, Repr

/-- Numeric value of a `Mode` enumerator. -/
def Mode.val : Mode → Nat
  | .OUTPUT_MODE => 0
  | .INPUT_MODE => 1

/-- Source: `OWI::Device::set_mode`:
`if (mode == OUTPUT_MODE) *DDR() |= m_mask; else *DDR() &= ~m_mask;` -/
def set_mode (m_mask : Nat) (mode : Mode) (r : PinRegs) : PinRegs :=
  if mode = Mode.OUTPUT_MODE then
    { r with DDR := toUInt8 (r.DDR ||| m_mask) }
  else
    { r with DDR := toUInt8 (r.DDR &&& compl8 m_mask) }

/-- Source: `OWI::Device::set`: `*PORT() |= m_mask;` -/
def set (m_mask : Nat) (r : PinRegs) : PinRegs :=
  { r with PORT := toUInt8 (r.PORT ||| m_mask) }

/-- Source: `OWI::Device::clear`: `*PORT() &= ~m_mask;` -/
def clear (m_mask : Nat) (r : PinRegs) : PinRegs :=
  { r with PORT := toUInt8 (r.PORT &&& compl8 m_mask) }

end Device


/-! ## The bus pin of `OWI` (base class `IOPin`) and `power_off` -/

namespace IOPin

/-- Modelled from the spec: `IOPin::Mode` is declared in `Cosa/Pins.hh`, which is
outside the headers embedded here. The spec speaks of "switching the pin to
input"; the two directions of the pin are named as in the sibling enumeration
`OWI::Device::Mode`. -/
inductive Mode where
  | OUTPUT_MODE
  | INPUT_MODE
deriving DecidableEq, Repr

/-- Modelled from the spec: `IOPin::set_mode` is declared in `Cosa/Pins.hh`, which
is outside the headers embedded here. The spec's "switching the pin to input" is
the clearing of the pin's bit in the data direction register; output mode sets
it. -/
def set_mode (m_mask : Nat) (mode : Mode) (r : PinRegs) : PinRegs :=
  if mode = Mode.OUTPUT_MODE then
    { r with DDR := toUInt8 (r.DDR ||| m_mask) }
  else
    { r with DDR := toUInt8 (r.DDR &&& compl8 m_mask) }

/-- Modelled from the spec: `clear` of the pin base class is declared in
`Cosa/Pins.hh`, which is outside the headers embedded here. The spec's
"releasing" of the line is the clearing of the pin's bit in the port register
(output latch, or pull-up enable when the pin is an input). -/
def clear (m_mask : Nat) (r : PinRegs) : PinRegs :=
  { r with PORT := toUInt8 (r.PORT &&& compl8 m_mask) }

end IOPin

/-- Source: `OWI::power_off`: `set_mode(INPUT_MODE); clear();` on the bus pin whose mask
is `m_mask`. -/
def power_off (m_mask : Nat) (r : PinRegs) : PinRegs :=
  let r1 := IOPin.set_mode m_mask IOPin.Mode.INPUT_MODE r
  IOPin.clear m_mask r1

/-- The pin is an input: its data direction bits are all zero. -/
def isInput (m_mask : Nat) (r : PinRegs) : Prop := r.DDR &&& m_mask = 0

/-- The pin's port register bits (output latch / pull-up) are all zero. -/
def latchCleared (m_mask : Nat) (r : PinRegs) : Prop := r.PORT &&& m_mask = 0

/-! ## CrcAccumulator and identifier validation -/

/-- Modelled from the spec: the checksum code lives in `Cosa/OWI.cpp`, which is
outside the headers embedded here (the header only declares the accumulator
`m_crc`). The spec: "`update(crc, bit) -> new crc`, pure, 8-bit polynomial
feedback (matching the standard 1-Wire CRC-8 polynomial 0x31 reversed form)".
The reversed form of `0x31` is `0x8C`; the feedback is taken when the incoming
bit differs from the low bit of the accumulator. -/
def crc_update (crc bit : Nat) : Nat :=
  let mix := (crc ^^^ bit) &&& 1
  let crc1 := crc >>> 1
  if mix = 1 then crc1 ^^^ 0x8C else crc1

/-- The accumulator before an `update` by `bit`, recovered from the accumulator
after it: the top bit of the result tells whether the feedback was taken. Only
used to show that `crc_update` loses no information. -/
def crc_undo (crc bit : Nat) : Nat :=
  let mix := crc >>> 7
  let crc1 := if mix = 1 then crc ^^^ 0x8C else crc
  (crc1 <<< 1) ||| (mix ^^^ bit)

/-- Bit `i` of a byte, as the number `0` or `1`. -/
def bit_at (byte i : Nat) : Nat := (byte >>> i) &&& 1

/-- Modelled from the spec: "applying `update` once per bit, LSB first" to one
byte. -/
def crc_byte (crc byte : Nat) : Nat :=
  (List.range 8).foldl (fun c i => crc_update c (bit_at byte i)) crc

/-- Modelled from the spec: the fold of the accumulator across the bytes of a
payload, starting from `0`. -/
def checksum (payload : List Nat) : Nat :=
  payload.foldl crc_byte 0

/-- Modelled from the spec: "computing the checksum and appending it". -/
def append_crc (payload : List Nat) : List Nat :=
  payload ++ [checksum payload]

/-- Modelled from the spec: "applying `update` once per bit, LSB first, across a
7-byte identifier and comparing the fold-out to the 8th byte is the sole
validity check" of an 8 byte identifier. -/
def validates (id : List Nat) : Bool :=
  id.length == ROM_MAX && checksum (id.take 7) == id.getD 7 0

/-- Flip bit position `k` of an identifier: bit `k % 8` of byte `k / 8`
(position `0` is the least significant bit of byte `0`). -/
def flip_bit (id : List Nat) (k : Nat) : List Nat :=
  id.set (k / 8) (id.getD (k / 8) 0 ^^^ (1 <<< (k % 8)))

end OWI

/-! ## SPI: hardware model and the inline transfer functions -/

namespace SPI

/-- The SPI unit as seen by the inline functions of `class SPI`: the data
register `SPDR`, the flag `SPIF` of the status register `SPSR`, the shift in
progress, and the device at the other end of the wires. A shift started by a
store to `SPDR` takes `period` further status reads to complete; on completion
the byte answered by the slave is latched into `SPDR` and `SPIF` is raised.
`mosi`/`miso` record, oldest first, the bytes shifted out and in. -/
structure Bus where
  SPDR : Nat
  SPIF : Bool
  pending : Option Nat
  period : Nat
  slave : List Nat → Nat
  mosi : List Nat
  miso : List Nat

/-- The statement `SPDR = data;`: starts the shift of one byte. -/
def store_SPDR (data : Nat) (s : Bus) : Bus :=
  { s with SPDR := toUInt8 data, SPIF := false, pending := some s.period,
           mosi := s.mosi ++ [toUInt8 data] }

/-- Passage of time between two reads of `SPSR`. -/
def tick (s : Bus) : Bus :=
  match s.pending with
  | none => s
  | some 0 =>
    { s with SPDR := toUInt8 (s.slave s.mosi), SPIF := true, pending := none,
             miso := s.miso ++ [toUInt8 (s.slave s.mosi)] }
  | some (n + 1) => { s with pending := some n }

/-- The busy wait `loop_until_bit_is_set(SPSR, SPIF);`, with a bound on the
number of status reads. -/
def loop_until_SPIF : Nat → Bus → Option Bus
  | 0, _ => none
  | fuel + 1, s =>
    let s1 := tick s
    if s1.SPIF then some s1 else loop_until_SPIF fuel s1

/-- The expression `SPDR` read after `SPSR` was read with `SPIF` set: yields the
received byte and clears the flag. -/
def load_SPDR (s : Bus) : Nat × Bus :=
  (s.SPDR, { s with SPIF := false })

/-- Source: `SPI::exchange(uint8_t data)`:
`SPDR = data; loop_until_bit_is_set(SPSR, SPIF); return (SPDR);` -/
def exchange (fuel : Nat) (data : Nat) (s : Bus) : Option (Nat × Bus) :=
  match loop_until_SPIF fuel (store_SPDR data s) with
  | none => none
  | some s1 => some (load_SPDR s1)

/-- The bus after one completed exchange of `data` (used to state results): the
byte is on the `mosi` record, the slave's answer is in `SPDR` and on the `miso`
record, and the unit is idle with `SPIF` cleared. -/
def exchanged (data : Nat) (s : Bus) : Bus :=
  { s with SPDR := toUInt8 (s.slave (s.mosi ++ [toUInt8 data])),
           SPIF := false, pending := none,
           mosi := s.mosi ++ [toUInt8 data],
           miso := s.miso ++ [toUInt8 (s.slave (s.mosi ++ [toUInt8 data]))] }

/-- Source: `SPI::read(uint8_t cmd)`: `exchange(cmd); return (exchange(0));` -/
def read (fuel : Nat) (cmd : Nat) (s : Bus) : Option (Nat × Bus) :=
  match exchange fuel cmd s with
  | none => none
  | some (_, s1) => exchange fuel 0 s1

/-- Source: `SPI::write(uint8_t cmd, uint8_t data)`:
`uint8_t status = exchange(cmd); exchange(data); return (status);` -/
def write (fuel : Nat) (cmd data : Nat) (s : Bus) : Option (Nat × Bus) :=
  match exchange fuel cmd s with
  | none => none
  | some (status, s1) =>
    match exchange fuel data s1 with
    | none => none
    | some (_, s2) => some (status, s2)

/-! ## The `SPI_transaction(ss)` block -/

/-- What a run of the block does, in order. -/
inductive Ev where
  | ss_clear
  | body
  | ss_set
deriving DecidableEq, Repr

/-- State of a run of the block: the loop counter `i`, the state `st` of the
surrounding program (the pin `ss` included), and the record of what ran. -/
structure Loop (σ : Type) where
  i : Nat
  st : σ
  trace : List Ev
deriving DecidableEq, Repr

/-- A C `for` loop without `break`: test the condition, run the body, run the
iteration expression, repeat. The bound counts condition tests. -/
def for_loop {S : Type} (cond : S → Bool) (body incr : S → S) : Nat → S → Option S
  | 0, _ => none
  | fuel + 1, s =>
    if cond s then for_loop cond body incr fuel (incr (body s)) else some s

/-- Source: `for (uint8_t i = (ss.clear(), 1); i != 0; i--, ss.set())` followed by a
body; `ss_clear` and `ss_set` are the two member functions of the pin `ss`.
The counter `i` is declared in the initialiser of the `for`, so it is in scope
of the body: a body receives the counter and the program state and returns
both, the counter being stored back into the `uint8_t`. -/
def SPI_transaction {σ : Type} (ss_clear ss_set : σ → σ) (body : Nat → σ → Nat × σ)
    (fuel : Nat) (s0 : σ) : Option (Loop σ) :=
  let init : Loop σ := { i := toUInt8 1, st := ss_clear s0, trace := [Ev.ss_clear] }
  for_loop
    (fun s => s.i != 0)
    (fun s => { i := toUInt8 (body s.i s.st).1, st := (body s.i s.st).2,
                trace := s.trace ++ [Ev.body] })
    (fun s => { i := toUInt8 (s.i + 255), st := ss_set s.st,
                trace := s.trace ++ [Ev.ss_set] })
    fuel init

/-- A body that runs to its end and assigns the counter: `if (n == 0) i = 2; n++;`
on a program state that is the number `n` of runs of the body so far. -/
def body_assigns_counter (i n : Nat) : Nat × Nat :=
  (if n = 0 then 2 else i, n + 1)

end SPI

/-! # Theorems -/

namespace OWI

/-! ## Bit level facts about 8 bit registers -/

/-- Bits of the 8 bit complement. -/
theorem testBit_compl8 (m j : Nat) :
    (compl8 m).testBit j = (decide (j < 8) && !m.testBit j) := by
  have h255 : (0xFF : Nat) = 2 ^ 8 - 1 := by norm_num
  have h256 : (256 : Nat) = 2 ^ 8 := by norm_num
  unfold compl8
  rw [Nat.testBit_xor, h255, h256, Nat.testBit_two_pow_sub_one, Nat.testBit_mod_two_pow]
  by_cases hj : j < 8 <;> simp [hj]

/-- A byte has no bits at positions 8 and above. -/
theorem testBit_byte_high (d j : Nat) (hd : d < 256) (hj : 8 ≤ j) :
    d.testBit j = false := by
  apply Nat.testBit_lt_two_pow
  calc d < 2 ^ 8 := by simpa using hd
    _ ≤ 2 ^ j := Nat.pow_le_pow_right (by norm_num) hj

/-- An `|=` on bytes does not truncate. -/
theorem toUInt8_or (d m : Nat) (hd : d < 256) (hm : m < 256) :
    toUInt8 (d ||| m) = d ||| m := by
  have h : d ||| m < 2 ^ 8 := Nat.or_lt_two_pow (by simpa using hd) (by simpa using hm)
  exact Nat.mod_eq_of_lt (by simpa using h)

/-- An `&=` on a byte does not truncate. -/
theorem toUInt8_and (d c : Nat) (hd : d < 256) :
    toUInt8 (d &&& c) = d &&& c :=
  Nat.mod_eq_of_lt (Nat.lt_of_le_of_lt Nat.and_le_left hd)

/-- After `r &= ~m` no bit of `m` is left in `r`, whatever was stored before. -/
theorem and_compl8_and_mask (d m : Nat) : toUInt8 (d &&& compl8 m) &&& m = 0 := by
  have h256 : (256 : Nat) = 2 ^ 8 := by norm_num
  apply Nat.eq_of_testBit_eq
  intro j
  unfold toUInt8
  rw [Nat.testBit_and, h256, Nat.testBit_mod_two_pow, Nat.testBit_and, testBit_compl8]
  cases m.testBit j <;> simp

/-! ## Cursor sentinels -/

/-- C3: the error result `ERROR` of a search pass is negative and differs from the
"exhausted" sentinel `LAST`, also after both are converted to the `int8_t` that
`search_rom`/`alarm_search` return. -/
theorem error_cursor_distinct_from_last :
    Driver.ERROR < 0 ∧ Driver.ERROR ≠ Driver.LAST ∧
    toInt8 Driver.ERROR < 0 ∧ 0 ≤ toInt8 Driver.LAST ∧
    toInt8 Driver.ERROR ≠ toInt8 Driver.LAST := by
  decide

/-- C4: `FIRST = -1`, `LAST = ROMBITS = ROM_MAX * CHARBITS = 64` with
`ROM_MAX = 8`; `ROMBITS` fits a `uint8_t` (the store does not truncate); and
every cursor in `[-1, 64]` converts to `int8_t` without wrap-around. -/
theorem cursor_range_sentinels :
    Driver.FIRST = -1 ∧ Driver.LAST = 64 ∧ Driver.LAST = (ROMBITS : Int) ∧
    ROM_MAX = 8 ∧ ROMBITS = ROM_MAX * CHARBITS ∧ ROMBITS = 64 ∧ ROMBITS < 256 ∧
    (∀ c : Int, Driver.FIRST ≤ c → c ≤ Driver.LAST →
      toInt8 c = c ∧ -128 ≤ c ∧ c ≤ 127) := by
  refine ⟨by decide, by decide, rfl, rfl, by decide, by decide, by decide, ?_⟩
  intro c h1 h2
  have hF : Driver.FIRST = -1 := by decide
  have hL : Driver.LAST = 64 := by decide
  rw [hF] at h1
  rw [hL] at h2
  unfold toInt8
  omega

/-- Witness for C4 at the cursor `64`. -/
theorem cursor_range_sentinels_witness : toInt8 64 = 64 :=
  (cursor_range_sentinels.2.2.2.2.2.2.2 64 (by decide) (by decide)).1

/-! ## Power control -/

/-- C1: for every state of the bus pin, `power_off()` is `set_mode(INPUT_MODE)`
followed by `clear()`, and it leaves the pin an input (data direction bit
zero) with its port register bit cleared: a high-impedance input. -/
theorem power_off_high_impedance (m_mask : Nat) (r : PinRegs) :
    power_off m_mask r =
        IOPin.clear m_mask (IOPin.set_mode m_mask IOPin.Mode.INPUT_MODE r) ∧
    isInput m_mask (power_off m_mask r) ∧
    latchCleared m_mask (power_off m_mask r) := by
  refine ⟨rfl, ?_, ?_⟩
  · show toUInt8 (r.DDR &&& compl8 m_mask) &&& m_mask = 0
    exact and_compl8_and_mask _ _
  · show toUInt8 (r.PORT &&& compl8 m_mask) &&& m_mask = 0
    exact and_compl8_and_mask _ _

/-! ## Slave pin helpers -/

/-- C8: on 8 bit registers `d`, `p` and an 8 bit mask `m`, the helpers of
`OWI::Device` compute `d | m`, `d & ~m`, `p | m`, `p & ~m`; the bits of `m` are
set, respectively cleared, every bit outside `m` keeps its value, the other
register is untouched, and each helper is idempotent. -/
theorem device_pin_helpers (m : Nat) (r : PinRegs) (hm : m < 256) (hr : r.WF) :
    ((Device.set_mode m Device.Mode.OUTPUT_MODE r).DDR = r.DDR ||| m ∧
     (Device.set_mode m Device.Mode.INPUT_MODE r).DDR = r.DDR &&& compl8 m ∧
     (Device.set m r).PORT = r.PORT ||| m ∧
     (Device.clear m r).PORT = r.PORT &&& compl8 m ∧
     compl8 m = 255 - m) ∧
    (∀ j, m.testBit j = true →
      (Device.set_mode m Device.Mode.OUTPUT_MODE r).DDR.testBit j = true ∧
      (Device.set_mode m Device.Mode.INPUT_MODE r).DDR.testBit j = false ∧
      (Device.set m r).PORT.testBit j = true ∧
      (Device.clear m r).PORT.testBit j = false) ∧
    (∀ j, m.testBit j = false →
      (Device.set_mode m Device.Mode.OUTPUT_MODE r).DDR.testBit j = r.DDR.testBit j ∧
      (Device.set_mode m Device.Mode.INPUT_MODE r).DDR.testBit j = r.DDR.testBit j ∧
      (Device.set m r).PORT.testBit j = r.PORT.testBit j ∧
      (Device.clear m r).PORT.testBit j = r.PORT.testBit j) ∧
    ((∀ mode, (Device.set_mode m mode r).PORT = r.PORT) ∧
     (Device.set m r).DDR = r.DDR ∧ (Device.clear m r).DDR = r.DDR) ∧
    ((∀ mode, Device.set_mode m mode (Device.set_mode m mode r) =
        Device.set_mode m mode r) ∧
     Device.set m (Device.set m r) = Device.set m r ∧
     Device.clear m (Device.clear m r) = Device.clear m r) := by
  obtain ⟨hd, hp⟩ := hr
  have e1 : (Device.set_mode m Device.Mode.OUTPUT_MODE r).DDR = r.DDR ||| m :=
    toUInt8_or _ _ hd hm
  have e2 : (Device.set_mode m Device.Mode.INPUT_MODE r).DDR = r.DDR &&& compl8 m :=
    toUInt8_and _ _ hd
  have e3 : (Device.set m r).PORT = r.PORT ||| m := toUInt8_or _ _ hp hm
  have e4 : (Device.clear m r).PORT = r.PORT &&& compl8 m := toUInt8_and _ _ hp
  have hor : ∀ d, d < 256 → d ||| m < 256 := fun d h => by
    have := Nat.or_lt_two_pow (n := 8) (by simpa using h) (by simpa using hm)
    simpa using this
  have hand : ∀ d c, d < 256 → d &&& c < 256 := fun d c h =>
    Nat.lt_of_le_of_lt Nat.and_le_left h
  refine ⟨⟨e1, e2, e3, e4, ?_⟩, ?_, ?_, ⟨?_, rfl, rfl⟩, ?_, ?_, ?_⟩
  · apply Nat.eq_of_testBit_eq
    intro j
    have hsub : 255 - m = 2 ^ 8 - (m + 1) := by omega
    have hm8 : m < 2 ^ 8 := by simpa using hm
    rw [testBit_compl8, hsub, Nat.testBit_two_pow_sub_succ hm8]
  · intro j hj
    rw [e1, e2, e3, e4]
    simp [Nat.testBit_or, Nat.testBit_and, testBit_compl8, hj]
  · intro j hj
    rw [e1, e2, e3, e4]
    simp only [Nat.testBit_or, Nat.testBit_and, testBit_compl8, hj]
    by_cases h8 : j < 8
    · simp [h8]
    · have h1 := testBit_byte_high r.DDR j hd (by omega)
      have h2 := testBit_byte_high r.PORT j hp (by omega)
      simp [h1, h2]
  · intro mode
    cases mode <;> rfl
  · intro mode
    cases mode
    · show ({ r with DDR := toUInt8 (toUInt8 (r.DDR ||| m) ||| m) } : PinRegs) =
        { r with DDR := toUInt8 (r.DDR ||| m) }
      rw [toUInt8_or _ _ hd hm, toUInt8_or _ _ (hor _ hd) hm, Nat.or_assoc, Nat.or_self]
    · show ({ r with DDR := toUInt8 (toUInt8 (r.DDR &&& compl8 m) &&& compl8 m) } : PinRegs)
        = { r with DDR := toUInt8 (r.DDR &&& compl8 m) }
      rw [toUInt8_and _ _ hd, toUInt8_and _ _ (hand _ _ hd), Nat.and_assoc, Nat.and_self]
  · show ({ r with PORT := toUInt8 (toUInt8 (r.PORT ||| m) ||| m) } : PinRegs) =
      { r with PORT := toUInt8 (r.PORT ||| m) }
    rw [toUInt8_or _ _ hp hm, toUInt8_or _ _ (hor _ hp) hm, Nat.or_assoc, Nat.or_self]
  · show ({ r with PORT := toUInt8 (toUInt8 (r.PORT &&& compl8 m) &&& compl8 m) } : PinRegs)
      = { r with PORT := toUInt8 (r.PORT &&& compl8 m) }
    rw [toUInt8_and _ _ hp, toUInt8_and _ _ (hand _ _ hp), Nat.and_assoc, Nat.and_self]

/-- Witness for C8: mask `0x04` on `DDR = 0x21`, `PORT = 0x84`. -/
theorem device_pin_helpers_witness :
    (4 < 256 ∧ PinRegs.WF ⟨0x21, 0x84⟩) ∧
    (Device.set_mode 4 Device.Mode.OUTPUT_MODE ⟨0x21, 0x84⟩).DDR = 0x25 ∧
    (Device.clear 4 ⟨0x21, 0x84⟩).PORT = 0x80 :=
  ⟨⟨by decide, by decide⟩,
   (device_pin_helpers 4 ⟨0x21, 0x84⟩ (by decide) (by decide)).1.1,
   (device_pin_helpers 4 ⟨0x21, 0x84⟩ (by decide) (by decide)).1.2.2.2.1⟩

/-! ## Checksum -/

set_option maxRecDepth 100000 in
/-- The accumulator stays a byte. -/
theorem crc_update_lt : ∀ c, c < 256 → ∀ b, b < 2 → crc_update c b < 256 := by
  decide

set_option maxRecDepth 100000 in
/-- One step of the accumulator can be undone. -/
theorem crc_undo_update :
    ∀ c, c < 256 → ∀ b, b < 2 → crc_undo (crc_update c b) b = c := by
  decide

set_option maxRecDepth 100000 in
/-- The two values of the incoming bit lead to different accumulators. -/
theorem crc_update_bit_ne : ∀ c, c < 256 → crc_update c 0 ≠ crc_update c 1 := by
  decide

/-- For a fixed incoming bit, different accumulators stay different. -/
theorem crc_update_inj (c1 c2 b : Nat) (h1 : c1 < 256) (h2 : c2 < 256) (hb : b < 2)
    (h : crc_update c1 b = crc_update c2 b) : c1 = c2 := by
  have e1 := crc_undo_update c1 h1 b hb
  have e2 := crc_undo_update c2 h2 b hb
  rw [h] at e1
  exact e1.symm.trans e2

/-- Different incoming bits lead to different accumulators. -/
theorem crc_update_ne_of_bit_ne (c x y : Nat) (hc : c < 256) (hx : x < 2) (hy : y < 2)
    (hxy : x ≠ y) : crc_update c x ≠ crc_update c y := by
  have h := crc_update_bit_ne c hc
  have hx01 : x = 0 ∨ x = 1 := by omega
  have hy01 : y = 0 ∨ y = 1 := by omega
  rcases hx01 with rfl | rfl <;> rcases hy01 with rfl | rfl
  · exact absurd rfl hxy
  · exact h
  · exact fun e => h e.symm
  · exact absurd rfl hxy

/-- A bit is `0` or `1`. -/
theorem bit_at_lt (b i : Nat) : bit_at b i < 2 := by
  have h : (b >>> i) &&& 1 ≤ 1 := Nat.and_le_right
  unfold bit_at
  omega

/-- A bit, through `Nat.testBit`. -/
theorem bit_at_eq (b i : Nat) : bit_at b i = (b.testBit i).toNat := by
  unfold bit_at
  rw [Nat.toNat_testBit, Nat.and_one_is_mod, Nat.shiftRight_eq_div_pow]

/-- Flipping bit `j` leaves every other bit alone. -/
theorem bit_at_flip_other (b i j : Nat) (h : i ≠ j) :
    bit_at (b ^^^ (1 <<< j)) i = bit_at b i := by
  have hji : ¬ j = i := fun e => h e.symm
  rw [bit_at_eq, bit_at_eq, Nat.testBit_xor, Nat.one_shiftLeft, Nat.testBit_two_pow]
  simp [hji]

/-- Flipping bit `j` changes bit `j`. -/
theorem bit_at_flip_same (b j : Nat) :
    bit_at (b ^^^ (1 <<< j)) j ≠ bit_at b j := by
  rw [bit_at_eq, bit_at_eq, Nat.testBit_xor, Nat.one_shiftLeft, Nat.testBit_two_pow]
  cases b.testBit j <;> simp

/-- Flipping a bit changes the number. -/
theorem xor_flip_ne (b j : Nat) : b ^^^ (1 <<< j) ≠ b := by
  intro h
  have h0 : b ^^^ (1 <<< j) = b ^^^ 0 := by simpa using h
  have h1 : 1 <<< j = 0 := Nat.xor_right_injective h0
  rw [Nat.one_shiftLeft] at h1
  exact absurd h1 (by positivity)

/-- Feeding any bits keeps the accumulator a byte. -/
theorem crc_fold_lt (f : Nat → Nat) (hf : ∀ i, f i < 2) :
    ∀ (l : List Nat) (c : Nat), c < 256 →
      l.foldl (fun c i => crc_update c (f i)) c < 256 := by
  intro l
  induction l with
  | nil => intro c hc; simpa using hc
  | cons a t ih =>
    intro c hc
    simp only [List.foldl_cons]
    exact ih _ (crc_update_lt c hc _ (hf a))

/-- Feeding the same bits to different accumulators keeps them different. -/
theorem crc_fold_inj (f g : Nat → Nat) (hf : ∀ i, f i < 2) (hg : ∀ i, g i < 2) :
    ∀ (l : List Nat) (c1 c2 : Nat), c1 < 256 → c2 < 256 → (∀ i ∈ l, f i = g i) →
      c1 ≠ c2 →
      l.foldl (fun c i => crc_update c (f i)) c1 ≠
        l.foldl (fun c i => crc_update c (g i)) c2 := by
  intro l
  induction l with
  | nil => intro c1 c2 _ _ _ hne; simpa using hne
  | cons a t ih =>
    intro c1 c2 h1 h2 hfg hne
    simp only [List.foldl_cons]
    have ha : f a = g a := hfg a (List.mem_cons_self a t)
    refine ih _ _ (crc_update_lt c1 h1 _ (hf a)) (crc_update_lt c2 h2 _ (hg a))
      (fun i hi => hfg i (List.mem_cons_of_mem a hi)) ?_
    rw [← ha]
    exact fun e => hne (crc_update_inj c1 c2 (f a) h1 h2 (hf a) e)

/-- Two bit streams that differ at exactly one position of the fold lead to
different accumulators. -/
theorem crc_fold_flip (f g : Nat → Nat) (hf : ∀ i, f i < 2) (hg : ∀ i, g i < 2)
    (j : Nat) (hj : f j ≠ g j) (hfg : ∀ i, i ≠ j → f i = g i) :
    ∀ (l : List Nat) (c : Nat), c < 256 → l.Nodup → j ∈ l →
      l.foldl (fun c i => crc_update c (f i)) c ≠
        l.foldl (fun c i => crc_update c (g i)) c := by
  intro l
  induction l with
  | nil => intro c _ _ hmem; simp at hmem
  | cons a t ih =>
    intro c hc hnd hmem
    simp only [List.foldl_cons]
    have hnd2 := List.nodup_cons.mp hnd
    by_cases haj : a = j
    · subst haj
      refine crc_fold_inj f g hf hg t _ _ (crc_update_lt c hc _ (hf a))
        (crc_update_lt c hc _ (hg a)) ?_ ?_
      · intro i hi
        exact hfg i (fun e => hnd2.1 (e ▸ hi))
      · exact crc_update_ne_of_bit_ne c _ _ hc (hf a) (hg a) hj
    · have hmem2 : j ∈ t := by
        rcases List.mem_cons.mp hmem with e | e
        · exact absurd e.symm haj
        · exact e
      rw [← hfg a haj]
      exact ih _ (crc_update_lt c hc _ (hf a)) hnd2.2 hmem2

/-- A byte keeps the accumulator a byte. -/
theorem crc_byte_lt (c b : Nat) (hc : c < 256) : crc_byte c b < 256 :=
  crc_fold_lt (bit_at b) (bit_at_lt b) _ c hc

/-- The same byte fed to different accumulators keeps them different. -/
theorem crc_byte_inj (c1 c2 b : Nat) (h1 : c1 < 256) (h2 : c2 < 256) (hne : c1 ≠ c2) :
    crc_byte c1 b ≠ crc_byte c2 b :=
  crc_fold_inj (bit_at b) (bit_at b) (bit_at_lt b) (bit_at_lt b) _ c1 c2 h1 h2
    (fun _ _ => rfl) hne

/-- A byte with one of its eight bits flipped leads to a different accumulator. -/
theorem crc_byte_flip (c b j : Nat) (hc : c < 256) (hj : j < 8) :
    crc_byte c (b ^^^ (1 <<< j)) ≠ crc_byte c b :=
  crc_fold_flip (bit_at (b ^^^ (1 <<< j))) (bit_at b) (bit_at_lt _) (bit_at_lt b) j
    (bit_at_flip_same b j) (fun i hi => bit_at_flip_other b i j hi)
    (List.range 8) c hc (List.nodup_range 8) (List.mem_range.mpr hj)

/-- Folding bytes keeps the accumulator a byte. -/
theorem crc_bytes_lt : ∀ (l : List Nat) (c : Nat), c < 256 → l.foldl crc_byte c < 256 := by
  intro l
  induction l with
  | nil => intro c hc; simpa using hc
  | cons a t ih => intro c hc; exact ih _ (crc_byte_lt c a hc)

/-- Folding the same bytes from different accumulators keeps them different. -/
theorem crc_bytes_inj : ∀ (l : List Nat) (c1 c2 : Nat), c1 < 256 → c2 < 256 → c1 ≠ c2 →
    l.foldl crc_byte c1 ≠ l.foldl crc_byte c2 := by
  intro l
  induction l with
  | nil => intro c1 c2 _ _ hne; simpa using hne
  | cons a t ih =>
    intro c1 c2 h1 h2 hne
    exact ih _ _ (crc_byte_lt c1 a h1) (crc_byte_lt c2 a h2) (crc_byte_inj c1 c2 a h1 h2 hne)

/-- The checksum of a payload changes when one bit of one of its bytes flips. -/
theorem checksum_flip (pre post : List Nat) (b j : Nat) (hj : j < 8) :
    checksum (pre ++ (b ^^^ (1 <<< j)) :: post) ≠ checksum (pre ++ b :: post) := by
  unfold checksum
  rw [List.foldl_append, List.foldl_append, List.foldl_cons, List.foldl_cons]
  have hc : pre.foldl crc_byte 0 < 256 := crc_bytes_lt pre 0 (by norm_num)
  exact crc_bytes_inj post _ _ (crc_byte_lt _ _ hc) (crc_byte_lt _ _ hc)
    (crc_byte_flip _ b j hc hj)

set_option maxRecDepth 100000 in
/-- The modelled accumulator is the published 1-Wire CRC-8: the identifier
`02 1C B8 01 00 00 00` of the Maxim application note has checksum `A2`. -/
theorem checksum_reference_vector :
    checksum [0x02, 0x1C, 0xB8, 0x01, 0x00, 0x00, 0x00] = 0xA2 := by
  decide

/-- C2: appending the checksum of a 7 byte payload gives an identifier that
validates, and a valid identifier with any single one of its 64 bits flipped
does not validate. -/
theorem crc_round_trip :
    (∀ payload : List Nat, payload.length = 7 →
      validates (append_crc payload) = true) ∧
    (∀ id : List Nat, validates id = true → ∀ k, k < 64 →
      validates (flip_bit id k) = false) := by
  constructor
  · intro payload hlen
    simp [validates, append_crc, hlen, ROM_MAX, List.take_append_of_le_length,
      List.getD_eq_getElem?_getD, List.getElem?_append_right]
  · intro id hv k hk
    have hlen : id.length = 8 := by
      simp [validates, ROM_MAX] at hv
      exact hv.1
    obtain ⟨b0, b1, b2, b3, b4, b5, b6, b7, rfl⟩ :
        ∃ b0 b1 b2 b3 b4 b5 b6 b7, id = [b0, b1, b2, b3, b4, b5, b6, b7] := by
      match id, hlen with
      | [b0, b1, b2, b3, b4, b5, b6, b7], _ => exact ⟨b0, b1, b2, b3, b4, b5, b6, b7, rfl⟩
    have hsum : checksum [b0, b1, b2, b3, b4, b5, b6] = b7 := by
      simpa [validates, ROM_MAX] using hv
    have hj : k % 8 < 8 := Nat.mod_lt _ (by norm_num)
    have hi : k / 8 < 8 := by omega
    unfold flip_bit
    generalize k % 8 = j at hj ⊢
    generalize k / 8 = i at hi ⊢
    have f0 := checksum_flip [] [b1, b2, b3, b4, b5, b6] b0 j hj
    have f1 := checksum_flip [b0] [b2, b3, b4, b5, b6] b1 j hj
    have f2 := checksum_flip [b0, b1] [b3, b4, b5, b6] b2 j hj
    have f3 := checksum_flip [b0, b1, b2] [b4, b5, b6] b3 j hj
    have f4 := checksum_flip [b0, b1, b2, b3] [b5, b6] b4 j hj
    have f5 := checksum_flip [b0, b1, b2, b3, b4] [b6] b5 j hj
    have f6 := checksum_flip [b0, b1, b2, b3, b4, b5] [] b6 j hj
    have f7 := xor_flip_ne b7 j
    simp only [List.nil_append, List.cons_append, hsum] at f0 f1 f2 f3 f4 f5 f6
    interval_cases i <;>
      simp [validates, ROM_MAX, hsum] <;> first | assumption | exact fun e => f7 e.symm

/-- Witness for C2: the payload of a family `0x28` identifier, and bit 9 of the
identifier built from it. -/
theorem crc_round_trip_witness :
    validates (append_crc [0x28, 1, 2, 3, 4, 5, 6]) = true ∧
    validates (flip_bit (append_crc [0x28, 1, 2, 3, 4, 5, 6]) 9) = false :=
  ⟨crc_round_trip.1 [0x28, 1, 2, 3, 4, 5, 6] rfl,
   crc_round_trip.2 (append_crc [0x28, 1, 2, 3, 4, 5, 6])
     (crc_round_trip.1 [0x28, 1, 2, 3, 4, 5, 6] rfl) 9 (by decide)⟩

/-! ## Alarm iterator -/

/-- C5: `reset()` sets the cursor `m_last` to `FIRST` (`-1`), the cursor of a
freshly constructed iterator, leaves `m_family` and the `Driver` members
unchanged, and is idempotent. -/
theorem search_reset_cursor (s : Search) (owi : Option Nat) (family : Nat)
    (rom0 : List Nat) (next0 : Option Nat) :
    (Search.reset s).m_last = Driver.FIRST ∧
    (Search.reset s).m_last = -1 ∧
    (Search.reset s).m_last = (Search.new owi family rom0 next0).m_last ∧
    (Search.reset s).m_family = s.m_family ∧
    (Search.reset s).toDriverState = s.toDriverState ∧
    Search.reset (Search.reset s) = Search.reset s := by
  refine ⟨?_, ?_, ?_, rfl, rfl, rfl⟩
  · show toInt8 Driver.FIRST = Driver.FIRST
    decide
  · show toInt8 Driver.FIRST = -1
    decide
  · rfl

end OWI

namespace SPI

/-! ## Command framing -/

/-- State reached when the shift in progress completes. -/
theorem loop_until_SPIF_completes (n : Nat) :
    ∀ (fuel : Nat) (s : Bus), s.pending = some n → s.SPIF = false → n < fuel →
      loop_until_SPIF fuel s =
        some { s with SPDR := toUInt8 (s.slave s.mosi), SPIF := true, pending := none,
                      miso := s.miso ++ [toUInt8 (s.slave s.mosi)] } := by
  induction n with
  | zero =>
    intro fuel s hp _ hlt
    obtain ⟨k, rfl⟩ : ∃ k, fuel = k + 1 := ⟨fuel - 1, by omega⟩
    simp [loop_until_SPIF, tick, hp]
  | succ n ih =>
    intro fuel s hp hf hlt
    obtain ⟨k, rfl⟩ : ∃ k, fuel = k + 1 := ⟨fuel - 1, by omega⟩
    have hk : n < k := by omega
    have h := ih k { s with pending := some n } rfl hf hk
    simp only [hf] at h
    simp [loop_until_SPIF, tick, hp, hf, h]

/-- One `exchange` with enough status reads: the byte is shifted out, the slave's
answer is returned, and both are recorded. -/
theorem exchange_eq (fuel data : Nat) (s : Bus) (hfuel : s.period < fuel) :
    exchange fuel data s =
      some (toUInt8 (s.slave (s.mosi ++ [toUInt8 data])), exchanged data s) := by
  have h := loop_until_SPIF_completes s.period fuel (store_SPDR data s) rfl rfl hfuel
  simp only [store_SPDR] at h
  simp [exchange, store_SPDR, h, load_SPDR, exchanged]

/-- C6: with enough status reads for a byte shift, `read(cmd)` shifts out exactly
`cmd` then `0` and returns the byte received second; `write(cmd, data)` shifts
out exactly `cmd` then `data` and returns the byte received first. -/
theorem spi_read_write_framing (s : Bus) (cmd data fuel : Nat)
    (hfuel : s.period < fuel) :
    (∃ s2, read fuel cmd s =
        some (toUInt8 (s.slave (s.mosi ++ [toUInt8 cmd, 0])), s2) ∧
      s2.mosi = s.mosi ++ [toUInt8 cmd, 0] ∧
      s2.miso = s.miso ++ [toUInt8 (s.slave (s.mosi ++ [toUInt8 cmd])),
                           toUInt8 (s.slave (s.mosi ++ [toUInt8 cmd, 0]))]) ∧
    (∃ s2, write fuel cmd data s =
        some (toUInt8 (s.slave (s.mosi ++ [toUInt8 cmd])), s2) ∧
      s2.mosi = s.mosi ++ [toUInt8 cmd, toUInt8 data] ∧
      s2.miso = s.miso ++ [toUInt8 (s.slave (s.mosi ++ [toUInt8 cmd])),
                           toUInt8 (s.slave (s.mosi ++ [toUInt8 cmd, toUInt8 data]))]) := by
  have h1 := exchange_eq fuel cmd s hfuel
  have hp : (exchanged cmd s).period < fuel := hfuel
  have h2 := exchange_eq fuel 0 (exchanged cmd s) hp
  have h3 := exchange_eq fuel data (exchanged cmd s) hp
  constructor
  · refine ⟨exchanged 0 (exchanged cmd s), ?_, ?_, ?_⟩
    · simp only [read, h1, h2]
      simp [exchanged, toUInt8]
    · simp [exchanged, toUInt8]
    · simp [exchanged, toUInt8]
  · refine ⟨exchanged data (exchanged cmd s), ?_, ?_, ?_⟩
    · simp only [write, h1, h3]
    · simp [exchanged]
    · simp [exchanged]

/-- Witness for C6: a slave that answers the sum of all bytes it was sent, a
byte shift that spans three status reads, command `0x2A`, data `7`. -/
theorem spi_read_write_framing_witness :
    (∃ s2, read 4 0x2A ⟨0, false, none, 3, fun l => l.sum, [], []⟩ =
        some (0x2A, s2) ∧ s2.mosi = [0x2A, 0] ∧ s2.miso = [0x2A, 0x2A]) ∧
    (∃ s2, write 4 0x2A 7 ⟨0, false, none, 3, fun l => l.sum, [], []⟩ =
        some (0x2A, s2) ∧ s2.mosi = [0x2A, 7] ∧ s2.miso = [0x2A, 0x31]) :=
  spi_read_write_framing ⟨0, false, none, 3, fun l => l.sum, [], []⟩ 0x2A 7 4
    (by decide)

/-! ## Slave selection block -/

/-- C7 (as amended): for every pin `ss` (its `clear` and `set`) and every body
whose run leaves the counter `i` of the block at its value, the block
terminates once two condition tests are allowed, having run `ss.clear()`, the
body and `ss.set()` exactly once each, in that order. -/
theorem spi_transaction_once {σ : Type} (ss_clear ss_set : σ → σ)
    (body : Nat → σ → Nat × σ) (fuel : Nat) (s0 : σ) (hfuel : 2 ≤ fuel)
    (hbody : (body 1 (ss_clear s0)).1 = 1) :
    ∃ r, SPI_transaction ss_clear ss_set body fuel s0 = some r ∧
      r.trace = [Ev.ss_clear, Ev.body, Ev.ss_set] ∧
      r.st = ss_set (body 1 (ss_clear s0)).2 ∧
      r.i = 0 ∧
      r.trace.count Ev.body = 1 ∧ r.trace.count Ev.ss_clear = 1 ∧
      r.trace.count Ev.ss_set = 1 := by
  obtain ⟨n, rfl⟩ : ∃ n, fuel = n + 2 := ⟨fuel - 2, by omega⟩
  refine ⟨⟨0, ss_set (body 1 (ss_clear s0)).2, [Ev.ss_clear, Ev.body, Ev.ss_set]⟩,
    ?_, rfl, rfl, rfl, by simp, by simp, by simp⟩
  simp [SPI_transaction, for_loop, toUInt8, hbody]

/-- Witness for C7: a pin modelled by its level, a body that counts its runs and
leaves the counter alone. -/
theorem spi_transaction_once_witness :
    ∃ r, SPI_transaction (fun p : Bool × Nat => (false, p.2)) (fun p => (true, p.2))
        (fun i p => (i, (p.1, p.2 + 1))) 2 (true, 0) = some r ∧
      r.trace = [Ev.ss_clear, Ev.body, Ev.ss_set] ∧
      r.st = (true, 1) ∧
      r.i = 0 ∧
      r.trace.count Ev.body = 1 ∧ r.trace.count Ev.ss_clear = 1 ∧
      r.trace.count Ev.ss_set = 1 :=
  spi_transaction_once (fun p : Bool × Nat => (false, p.2)) (fun p => (true, p.2))
    (fun i p => (i, (p.1, p.2 + 1))) 2 (true, 0) (by decide) rfl

/-- C7 (counterexample to the claim as stated): the body
`if (n == 0) i = 2; n++;` runs to its end without `break` or `return`, yet the
block runs it twice and calls `ss.set()` twice, whatever the number of
condition tests allowed. -/
theorem spi_transaction_counter_assigned :
    SPI_transaction (fun n : Nat => n) (fun n => n) body_assigns_counter 3 0 =
      some ⟨0, 2, [Ev.ss_clear, Ev.body, Ev.ss_set, Ev.body, Ev.ss_set]⟩ ∧
    ∀ fuel r, SPI_transaction (fun n : Nat => n) (fun n => n) body_assigns_counter fuel 0
        = some r →
      r.trace = [Ev.ss_clear, Ev.body, Ev.ss_set, Ev.body, Ev.ss_set] ∧
      r.trace.count Ev.body = 2 ∧ r.trace.count Ev.ss_set = 2 := by
  constructor
  · rfl
  · intro fuel r h
    match fuel, h with
    | 0, h => simp [SPI_transaction, for_loop] at h
    | 1, h => simp [SPI_transaction, for_loop, toUInt8, body_assigns_counter] at h
    | 2, h => simp [SPI_transaction, for_loop, toUInt8, body_assigns_counter] at h
    | n + 3, h =>
      simp [SPI_transaction, for_loop, toUInt8, body_assigns_counter] at h
      subst h
      simp

end SPI

end Cosa
